import Mathlib

/-!
Verification of the message location-and-relocation engine of a Service Bus
management extension (source: src/servicebus/serviceBusService.ts).

The development shallowly embeds the relevant parts of the TypeScript source:

* a model of the JavaScript values the normalizer manipulates (`JSValue`),
  with `convertToPlainObject` translated branch for branch from the source;
* the connection-string parsing and the per-namespace client cache
  (`getNamespaceFromConnectionString`, `registerConnectionString`,
  `getClient`) as explicit state passing over `SBState`;
* the REST peek-lock call (`peekLockMessageRest`) over an explicit HTTP
  response value;
* the resubmit operation (`resubmitMessage`) as a function from an
  environment (the batches the broker hands back, whether the send
  succeeds) to a result together with a trace of broker-visible effects.

Machine integers are modelled as `Int`/`Nat`; JavaScript BigInt division
truncates toward zero and is modelled by `Int.tdiv`.
-/

/-! ## JavaScript value model -/

mutual
/-- Model of the JavaScript values handled by `convertToPlainObject`
(serviceBusService.ts lines 36-121).  The constructors mirror the shapes the
source distinguishes by duck typing: `vnull` covers both null and undefined,
`vbuf` is a Node Buffer, `vdate` a Date holding a Unix-epoch millisecond
count, `varr` an array, `vmap` an AmqpMap-like container (an object with a
`forEach` method whose constructor name contains "Map"), `vjson` an object
exposing a `toJSON` method (modelled by its `toJSON` result), and `vobj` a
regular record with string keys in insertion order. -/
inductive JSValue where
  | vnull : JSValue
  | vstr : String → JSValue
  | vnum : Int → JSValue
  | vbool : Bool → JSValue
  | vbuf : List Int → JSValue
  | vdate : Int → JSValue
  | varr : JSList → JSValue
  | vmap : JSFields → JSValue
  | vjson : JSValue → JSValue
  | vobj : JSFields → JSValue
/-- A list of JavaScript values (element list of an array). -/
inductive JSList where
  | nil : JSList
  | cons : JSValue → JSList → JSList
/-- Ordered string-keyed fields of a record (or the entries of a map). -/
inductive JSFields where
  | nil : JSFields
  | cons : String → JSValue → JSFields → JSFields
end

/-- JavaScript property lookup on a record: with duplicate keys the later
binding wins, matching the semantics of object-literal and spread
construction, under which the field lists in this model arise. -/
def JSFields.prop : JSFields → String → Option JSValue
  | .nil, _ => none
  | .cons k v t, key =>
    match JSFields.prop t key with
    | some w => some w
    | none => if k = key then some v else none

/-- The JavaScript `in` operator: does the record have the key? -/
def JSFields.hasKey : JSFields → String → Bool
  | .nil, _ => false
  | .cons k _ t, key => k = key || JSFields.hasKey t key

/-- Concatenation of field lists (models spreading one record after
another: later fields override earlier ones under `JSFields.prop`). -/
def JSFields.append : JSFields → JSFields → JSFields
  | .nil, b => b
  | .cons k v t, b => .cons k v (JSFields.append t b)

/-- JavaScript truthiness, used by the `objAsAny.value` guard of the
datetime-offset branch. -/
def truthy : JSValue → Bool
  | .vnull => false
  | .vbool b => b
  | .vnum n => n != 0
  | .vstr s => s != ""
  | _ => true

/-! ## ISO-8601 formatting (model of JavaScript Date.toISOString) -/

/-- Left-pad a number with zeros to the given width. -/
def zeroPad (width : Nat) (n : Nat) : String :=
  let s := toString n
  String.mk (List.replicate (width - s.length) '0') ++ s

/-- Convert a day count relative to 1970-01-01 to a Gregorian calendar date
(year, month, day), days-from-civil inverted by era decomposition. -/
def civilFromDays (z : Int) : Int × Nat × Nat :=
  let zs := z + 719468
  let era := Int.fdiv zs 146097
  let doe := (zs - era * 146097).toNat
  let yoe := (doe - doe / 1460 + doe / 36524 - doe / 146096) / 365
  let y : Int := (yoe : Int) + era * 400
  let doy := doe - (365 * yoe + yoe / 4 - yoe / 100)
  let mp := (5 * doy + 2) / 153
  let d := doy - (153 * mp + 2) / 5 + 1
  let m := if mp < 10 then mp + 3 else mp - 9
  (if m ≤ 2 then y + 1 else y, m, d)

/-- Model of JavaScript `new Date(ms).toISOString()` for a millisecond
count inside the valid Date range. -/
def isoDateString (ms : Int) : String :=
  let days := Int.fdiv ms 86400000
  let tod := (ms - days * 86400000).toNat
  let ymd := civilFromDays days
  let y := ymd.1
  let yearStr :=
    if 0 ≤ y ∧ y ≤ 9999 then zeroPad 4 y.toNat
    else if y < 0 then "-" ++ zeroPad 6 (-y).toNat
    else "+" ++ zeroPad 6 y.toNat
  yearStr ++ "-" ++ zeroPad 2 ymd.2.1 ++ "-" ++ zeroPad 2 ymd.2.2 ++ "T" ++
    zeroPad 2 (tod / 3600000) ++ ":" ++ zeroPad 2 (tod % 3600000 / 60000) ++ ":" ++
    zeroPad 2 (tod % 60000 / 1000) ++ "." ++ zeroPad 3 (tod % 1000) ++ "Z"

/-- The largest absolute millisecond count a JavaScript Date accepts;
`toISOString` throws beyond it. -/
def maxDateMillis : Int := 8640000000000000

/-! ## convertToPlainObject (serviceBusService.ts lines 36-121) -/

/-- The guard of the AMQP datetime-offset branch (source lines 62-63): the
record has a `descriptor` field whose `value` equals
"com.microsoft:datetime-offset", and a truthy `value` field. -/
def datetimeShape (fs : JSFields) : Bool :=
  match fs.prop "descriptor" with
  | some (.vobj dfs) =>
    match dfs.prop "value" with
    | some (.vstr tag) =>
      tag = "com.microsoft:datetime-offset" &&
        (match fs.prop "value" with
         | some v => truthy v
         | none => false)
    | _ => false
  | _ => false

/-- The guard of the split-word (Long) branch (source line 84): fields
`low` and `high` present and no `type` field. -/
def splitWordShape (fs : JSFields) : Bool :=
  fs.hasKey "low" && fs.hasKey "high" && !(fs.hasKey "type")

/-- Ticks between 0001-01-01 and the Unix epoch (source line 74). -/
def ticksToUnixEpoch : Int := 621355968000000000

/-- Read byte `i` of the datetime-offset byte record: a missing field reads
as 0 via the source's `bytes[i] || 0`; a present non-numeric field makes
the BigInt conversion of the source throw (modelled as failure, which the
source catches and turns into a fall-through). -/
def dtoByte (vf : JSFields) (i : Nat) : Option Int :=
  match vf.prop (toString i) with
  | none => some 0
  | some (.vnum b) => some b
  | some _ => none

/-- Big-endian accumulation of the 8 bytes into a tick count (source lines
67-70); `t * 256 + b` agrees with the source's shift-then-or for byte
values in 0..255. -/
def dtoTicks (vf : JSFields) : Option Int :=
  [0, 1, 2, 3, 4, 5, 6, 7].foldl
    (fun acc i =>
      match acc, dtoByte vf i with
      | some t, some b => some (t * 256 + b)
      | _, _ => none)
    (some 0)

/-- The try-block of the datetime-offset branch (source lines 64-77):
decode the byte record into ticks, shift to the Unix epoch, divide by
10000 (BigInt division truncates toward zero), and format; `none` models
the exception paths that the source catches and lets fall through. -/
def tryDecodeDatetime (fs : JSFields) : Option String :=
  match fs.prop "value" with
  | some (.vobj vf) =>
    match dtoTicks vf with
    | some ticks =>
      let unixMillis := Int.tdiv (ticks - ticksToUnixEpoch) 10000
      if unixMillis.natAbs ≤ maxDateMillis.natAbs then some (isoDateString unixMillis)
      else none
    | none => none
  | _ => none

mutual
/-- Model of `convertToPlainObject` (source lines 36-121), branch for
branch in source order: null/undefined pass through; a Date becomes its ISO
string; a Buffer passes through; an array recurses elementwise; for other
objects, first the datetime-offset decode is attempted (failure falls
through), then the split-word reconstruction with its plausible-timestamp
range check, then map flattening, then `toJSON` unwrapping, then a
structural field-by-field copy; primitives pass through. -/
def convertToPlainObject : JSValue → JSValue
  | .vnull => .vnull
  | .vdate ms => .vstr (isoDateString ms)
  | .vbuf bs => .vbuf bs
  | .varr xs => .varr (convertToPlainList xs)
  | .vobj fs =>
    match (if datetimeShape fs then tryDecodeDatetime fs else none) with
    | some s => .vstr s
    | none =>
      if splitWordShape fs then
        match fs.prop "low", fs.prop "high" with
        | some (.vnum lo), some (.vnum hi) =>
          let num := lo + hi * 4294967296
          if 1000000000000 < num ∧ num < 2000000000000 then .vstr (isoDateString num)
          else .vnum num
        | _, _ => .vobj (convertToPlainFields fs)
      else .vobj (convertToPlainFields fs)
  | .vmap es => .vobj (convertToPlainFields es)
  | .vjson v => convertToPlainObject v
  | .vstr s => .vstr s
  | .vnum n => .vnum n
  | .vbool b => .vbool b
/-- Elementwise conversion of an array (source line 53). -/
def convertToPlainList : JSList → JSList
  | .nil => .nil
  | .cons x t => .cons (convertToPlainObject x) (convertToPlainList t)
/-- Field-by-field conversion of a record or map (source lines 99-103 and
112-116). -/
def convertToPlainFields : JSFields → JSFields
  | .nil => .nil
  | .cons k v t => .cons k (convertToPlainObject v) (convertToPlainFields t)
end

/-! ## Plain values (for the idempotence claim) -/

mutual
/-- A value made only of language-native plain data: strings, numbers,
booleans, null, arrays, binary buffers and plain string-keyed records of
such values (no Date, map container or self-serializing object). -/
def isPlainValue : JSValue → Bool
  | .vnull => true
  | .vstr _ => true
  | .vnum _ => true
  | .vbool _ => true
  | .vbuf _ => true
  | .vdate _ => false
  | .vmap _ => false
  | .vjson _ => false
  | .varr xs => isPlainList xs
  | .vobj fs => isPlainFields fs
/-- All elements plain. -/
def isPlainList : JSList → Bool
  | .nil => true
  | .cons x t => isPlainValue x && isPlainList t
/-- All field values plain. -/
def isPlainFields : JSFields → Bool
  | .nil => true
  | .cons _ v t => isPlainValue v && isPlainFields t
end

mutual
/-- No record anywhere in the value matches one of the broker-native decode
guards (datetime-offset descriptor shape, or split-word shape: `low` and
`high` keys without a `type` key). -/
def brokerFree : JSValue → Bool
  | .vobj fs => !(datetimeShape fs) && !(splitWordShape fs) && brokerFreeFields fs
  | .varr xs => brokerFreeList xs
  | .vmap es => brokerFreeFields es
  | .vjson v => brokerFree v
  | _ => true
/-- All elements broker-shape-free. -/
def brokerFreeList : JSList → Bool
  | .nil => true
  | .cons x t => brokerFree x && brokerFreeList t
/-- All field values broker-shape-free. -/
def brokerFreeFields : JSFields → Bool
  | .nil => true
  | .cons _ v t => brokerFree v && brokerFreeFields t
end

/-- A plain record with numeric `low` and `high` fields: the concrete
input on which idempotence fails. -/
def lowHighRecord : JSValue :=
  .vobj (.cons "low" (.vnum 5) (.cons "high" (.vnum 0) .nil))

/-- The split-word record reconstructing exactly 1000000000000 (the lower
boundary of the spec's interval): low = 3567587328, high = 232. -/
def splitWordBoundary : JSValue :=
  .vobj (.cons "low" (.vnum 3567587328) (.cons "high" (.vnum 232) .nil))

/-! ## Connection-string parsing (serviceBusService.ts lines 129-132) -/

/-- The literal head of the connection-string regex. -/
def endpointMarker : List Char := "Endpoint=sb://".data

/-- The literal namespace suffix of the connection-string regex. -/
def namespaceSuffix : List Char := ".servicebus.windows.net".data

/-- Try the regex Endpoint=sb://([^.]+)\.servicebus\.windows\.net at one
position: the marker, then a nonempty run of non-dot characters (greedy,
and no shorter run can help since the next required character is a dot),
then the suffix.  Returns the capture group. -/
def matchEndpointAt (l : List Char) : Option String :=
  if endpointMarker.isPrefixOf l then
    let rest := l.drop endpointMarker.length
    let name := rest.takeWhile (fun c => c != '.')
    if name.length > 0 && namespaceSuffix.isPrefixOf (rest.drop name.length) then
      some (String.mk name)
    else none
  else none

/-- Leftmost-match scan of the subject string, as String.prototype.match
performs for an unanchored regex. -/
def scanForEndpoint : List Char → Option String
  | [] => none
  | c :: cs =>
    match matchEndpointAt (c :: cs) with
    | some s => some s
    | none => scanForEndpoint cs

/-- Model of `getNamespaceFromConnectionString` (source lines 129-132):
the capture group with the canonical suffix appended on a match, the empty
string otherwise. -/
def getNamespaceFromConnectionString (connectionString : String) : String :=
  match scanForEndpoint connectionString.data with
  | some name => name ++ ".servicebus.windows.net"
  | none => ""

/-! ## The service state and the client cache (source lines 134-201) -/

/-- How a cached client was constructed (source lines 168-178): from a
registered connection string, or from the fully-qualified namespace with
the Azure AD credential. -/
inductive ClientConfig where
  | connectionStr : String → ClientConfig
  | aad : String → ClientConfig
deriving DecidableEq

/-- A constructed ServiceBusClient (or administration client): `id` is a
construction counter distinguishing separately constructed clients. -/
structure SBClient where
  id : Nat
  config : ClientConfig
deriving DecidableEq

/-- The mutable fields of ServiceBusService (source lines 135-137): the
two client caches and the connection-string map, plus the construction
counter; each JavaScript Map is an association list with unique keys. -/
structure SBState where
  clients : List (String × SBClient)
  adminClients : List (String × SBClient)
  connectionStrings : List (String × String)
  nextId : Nat
deriving DecidableEq

/-- JavaScript Map.get: first (hence, with unique keys, only) binding. -/
def mapGet {α : Type} : List (String × α) → String → Option α
  | [], _ => none
  | p :: t, k => if p.1 == k then some p.2 else mapGet t k

/-- JavaScript Map.set: replace the binding in place if the key is
present, otherwise append it. -/
def mapSet {α : Type} : List (String × α) → String → α → List (String × α)
  | [], k, v => [(k, v)]
  | p :: t, k, v => if p.1 == k then (k, v) :: t else p :: mapSet t k v

/-- JavaScript Map.delete: remove the key's binding. -/
def mapDelete {α : Type} : List (String × α) → String → List (String × α)
  | [], _ => []
  | p :: t, k => if p.1 == k then mapDelete t k else p :: mapDelete t k

/-- Model of `registerConnectionString` (source lines 147-156): parse the
namespace; on success store the connection string under it and evict that
namespace's cached client and admin client; on failure (empty string is
falsy) touch nothing.  Returns the parsed namespace. -/
def registerConnectionString (connectionString : String) (st : SBState) :
    String × SBState :=
  let ns := getNamespaceFromConnectionString connectionString
  if ns ≠ "" then
    (ns, { st with
      connectionStrings := mapSet st.connectionStrings ns connectionString,
      clients := mapDelete st.clients ns,
      adminClients := mapDelete st.adminClients ns })
  else (ns, st)

/-- The endpoint canonicalization of source lines 173-175: append the
suffix unless the argument already contains it. -/
def containsSub (pat : List Char) : List Char → Bool
  | [] => pat.isEmpty
  | c :: cs => pat.isPrefixOf (c :: cs) || containsSub pat cs

/-- String.prototype.includes. -/
def stringIncludes (s pat : String) : Bool := containsSub pat.data s.data

/-- The fully-qualified namespace handed to the SDK constructor on the
Azure AD path (source lines 173-175). -/
def fullyQualifiedName (ns : String) : String :=
  if stringIncludes ns ".servicebus.windows.net" then ns
  else ns ++ ".servicebus.windows.net"

/-- Model of `getClient` (source lines 165-182): look the namespace up in
the cache AS GIVEN; on a miss construct a client from the registered
connection string if any, else from the fully-qualified name with the
Azure AD credential, and cache it under the namespace as given. -/
def getClient (ns : String) (st : SBState) : SBClient × SBState :=
  match mapGet st.clients ns with
  | some c => (c, st)
  | none =>
    let c : SBClient :=
      match mapGet st.connectionStrings ns with
      | some cs => ⟨st.nextId, ClientConfig.connectionStr cs⟩
      | none => ⟨st.nextId, ClientConfig.aad (fullyQualifiedName ns)⟩
    (c, { st with clients := mapSet st.clients ns c, nextId := st.nextId + 1 })

/-- Model of `getAdminClient` (source lines 184-201), identical in shape
to `getClient` over the admin cache. -/
def getAdminClient (ns : String) (st : SBState) : SBClient × SBState :=
  match mapGet st.adminClients ns with
  | some c => (c, st)
  | none =>
    let c : SBClient :=
      match mapGet st.connectionStrings ns with
      | some cs => ⟨st.nextId, ClientConfig.connectionStr cs⟩
      | none => ⟨st.nextId, ClientConfig.aad (fullyQualifiedName ns)⟩
    (c, { st with adminClients := mapSet st.adminClients ns c, nextId := st.nextId + 1 })

/-- A service state with empty caches. -/
def emptyServiceState : SBState := ⟨[], [], [], 0⟩

/-- A parsable connection string for the witness. -/
def exampleConnStr : String :=
  "Endpoint=sb://myns.servicebus.windows.net/;SharedAccessKeyName=root;SharedAccessKey=abc"

/-- A service state holding cached state for an unrelated namespace. -/
def exampleState : SBState :=
  ⟨[("other", ⟨7, ClientConfig.aad "other.servicebus.windows.net"⟩)],
   [("other", ⟨8, ClientConfig.aad "other.servicebus.windows.net"⟩)],
   [("other", "oldconn")], 9⟩

/-! ## The REST peek-lock call (serviceBusService.ts lines 459-510) -/

/-- ASCII lowercase of one character (String.prototype.toLowerCase on the
header names in play). -/
def asciiLowerChar (c : Char) : Char :=
  if 'A' ≤ c ∧ c ≤ 'Z' then Char.ofNat (c.toNat + 32) else c

/-- ASCII lowercase of a string. -/
def asciiLower (s : String) : String :=
  String.mk (s.data.map asciiLowerChar)

/-- An HTTP response as the fetch API presents it: status, status text,
headers and the body text. -/
structure HttpResponse where
  status : Nat
  statusText : String
  headers : List (String × String)
  body : String

/-- fetch's Response.ok: status in 200..299. -/
def respOk (r : HttpResponse) : Bool := 200 ≤ r.status && r.status ≤ 299

/-- Headers.get: case-insensitive lookup of the first matching header. -/
def headerGet (headers : List (String × String)) (nm : String) : Option String :=
  (headers.find? (fun p => asciiLower p.1 == asciiLower nm)).map (fun p => p.2)

/-- The standard response headers excluded from user properties (source
line 494). -/
def standardRespHeaders : List String :=
  ["brokerproperties", "location", "content-type", "date", "server",
   "transfer-encoding", "strict-transport-security"]

/-- The non-standard response headers collected as application properties,
each value best-effort JSON-decoded with fallback to the raw string
(source lines 491-501). -/
def collectUserProperties (parseJson : String → Option JSValue)
    (headers : List (String × String)) : List (String × JSValue) :=
  (headers.filter (fun p => !(standardRespHeaders.contains (asciiLower p.1)))).map
    (fun p => (p.1, match parseJson p.2 with | some v => v | none => .vstr p.2))

/-- The receipt of a successful REST peek-lock (source line 509): the raw
unparsed body, the parsed BrokerProperties header, the collected user
properties and the Location header. -/
structure RestLockReceipt where
  body : String
  brokerProperties : JSValue
  userProperties : List (String × JSValue)
  location : String

/-- The error message raised for a non-success status (source line 483). -/
def peekLockErrorMessage (r : HttpResponse) : String :=
  "REST API peek-lock failed: " ++ toString r.status ++ " " ++ r.statusText ++ " - " ++ r.body

/-- Model of `peekLockMessageRest` (source lines 459-510) as a function of
the HTTP response; `parseJson` stands for the JavaScript JSON.parse
builtin (`none` models a parse exception).  Status 204 returns null; any
other non-success status raises with the body text; on success the
BrokerProperties header is parsed (absent parses as the empty record, an
unparsable one raises as JSON.parse does), the Location header is captured
(empty string when absent) and the body is kept raw. -/
def peekLockMessageRest (parseJson : String → Option JSValue) (resp : HttpResponse) :
    Except String (Option RestLockReceipt) :=
  if resp.status = 204 then Except.ok none
  else if !(respOk resp) then Except.error (peekLockErrorMessage resp)
  else
    let location := (headerGet resp.headers "Location").getD ""
    let userProperties := collectUserProperties parseJson resp.headers
    match headerGet resp.headers "BrokerProperties" with
    | some hdr =>
      match parseJson hdr with
      | some bp => Except.ok (some ⟨resp.body, bp, userProperties, location⟩)
      | none => Except.error "SyntaxError: unexpected token in JSON"
    | none => Except.ok (some ⟨resp.body, .vobj .nil, userProperties, location⟩)

/-! ## The resubmit operation (serviceBusService.ts lines 558-765) -/

/-- A received Service Bus message, with the fields `resubmitMessage`
reads. -/
structure Msg where
  sequenceNumber : Nat
  messageId : String
  body : JSValue
  contentType : Option String
  correlationId : Option String
  subject : Option String
  sessionId : Option String
  deadLetterReason : Option String
  applicationProperties : JSValue

/-- The message handed to `sender.sendMessages`. -/
structure OutMsg where
  body : JSValue
  contentType : Option String
  correlationId : Option String
  subject : Option String
  sessionId : Option String
  messageId : String
  applicationProperties : JSFields

/-- The broker-visible effects of one `resubmitMessage` call, in program
order: the confirmation peek, the lock-based receive, each abandon of a
non-matching message, the send to the origin entity, the complete of the
source message, the receive-and-auto-complete pass of the fallback path,
and the two fallback warning logs (deleted-something-assume-target versus
deleted-nothing). -/
inductive Event where
  | peek : Event
  | receive : Event
  | abandon : Nat → Event
  | send : OutMsg → Event
  | complete : Nat → Event
  | receiveAndDelete : Event
  | warnAssumedDeleted : Event
  | warnNotDeleted : Event

/-- The errors `resubmitMessage` can raise (source lines 607, 613, and a
send rejection propagating). -/
inductive SBError where
  | noMessagesFound : SBError
  | targetNotFound : SBError
  | sendFailed : SBError
deriving DecidableEq

/-- The broker's side of one resubmit call: what the confirmation peek
returns, what the lock-based receive returns, whether the send succeeds,
and what the fallback receive-and-auto-complete pass returns. -/
structure Env where
  peeked : List Msg
  received : List Msg
  sendOk : Bool
  deleted : List Msg

/-- An optional string as the JavaScript value a message field holds
(undefined when absent). -/
def optionStrVal : Option String → JSValue
  | none => .vnull
  | some s => .vstr s

/-- Spreading a converted property bag into an object literal: only a
record contributes string-keyed fields (spreading null or undefined
contributes none). -/
def spreadFields : JSValue → JSFields
  | .vobj fs => fs
  | _ => .nil

/-- The body-conversion guard of source lines 644 and 728: the body is
non-null, of object type, and not a Buffer. -/
def isConvertibleObject : JSValue → Bool
  | .vdate _ => true
  | .varr _ => true
  | .vmap _ => true
  | .vjson _ => true
  | .vobj _ => true
  | _ => false

/-- Body preparation before a send (source lines 642-651 and 723-737). -/
def prepareBody (b : JSValue) : JSValue :=
  if isConvertibleObject b then convertToPlainObject b else b

/-- The amended application-property set of the lock-held send (source
lines 750-754): the converted original properties spread first, then
x-resubmitted and x-original-dead-letter-reason.  No x-original-message-id
is added on this path. -/
def lockPathProperties (t : Msg) : JSFields :=
  JSFields.append (spreadFields (convertToPlainObject t.applicationProperties))
    (.cons "x-resubmitted" (.vbool true)
      (.cons "x-original-dead-letter-reason" (optionStrVal t.deadLetterReason) .nil))

/-- The amended application-property set of the peek-fallback send
(source lines 665-670): the converted original properties spread first,
then x-resubmitted, x-original-dead-letter-reason and
x-original-message-id. -/
def fallbackProperties (t : Msg) : JSFields :=
  JSFields.append (spreadFields (convertToPlainObject t.applicationProperties))
    (.cons "x-resubmitted" (.vbool true)
      (.cons "x-original-dead-letter-reason" (optionStrVal t.deadLetterReason)
        (.cons "x-original-message-id" (.vstr t.messageId) .nil)))

/-- The message sent on the lock-held path (source lines 743-755): the
original messageId is kept. -/
def lockPathOutMessage (t : Msg) : OutMsg :=
  ⟨prepareBody t.body, t.contentType, t.correlationId, t.subject, t.sessionId,
   t.messageId, lockPathProperties t⟩

/-- The message sent on the peek-fallback path (source lines 658-671):
the messageId is re-minted with a resubmit- marker. -/
def fallbackOutMessage (t : Msg) : OutMsg :=
  ⟨prepareBody t.body, t.contentType, t.correlationId, t.subject, t.sessionId,
   "resubmit-" ++ t.messageId, fallbackProperties t⟩

/-- The per-batch loop of source lines 622-634: walk the received batch in
order; a message matching the target sequence number overwrites the bound
result (so the last match is kept, as assigning `targetMessage = msg` in
the loop does), every other message is abandoned, in order. -/
def processBatch (target : Nat) : List Msg → Option Msg × List Event
  | [] => (none, [])
  | m :: ms =>
    let rest := processBatch target ms
    if m.sequenceNumber = target then (some (rest.1.getD m), rest.2)
    else (rest.1, Event.abandon m.sequenceNumber :: rest.2)

/-- Model of `resubmitMessage` (source lines 558-765) as a result plus
effect trace.  In source order: peek up to 100 from the beginning; fail
with noMessagesFound on an empty peek; fail with targetNotFound when the
target sequence number is not among the peeked messages; receive with
peekLock (up to 100, 10s window) and run the per-batch loop; if a lock was
obtained, send the reconstructed message and only then complete the
source; otherwise send from the peeked snapshot, then run a
receive-and-auto-complete pass and match it by messageId or sequence
number, returning success with only a logged warning when the target is
not confirmed deleted.  A send rejection propagates as sendFailed before
any complete. -/
def resubmitMessage (env : Env) (target : Nat) : Except SBError Unit × List Event :=
  if env.peeked.length = 0 then (Except.error SBError.noMessagesFound, [Event.peek])
  else
    match env.peeked.find? (fun m => m.sequenceNumber == target) with
    | none => (Except.error SBError.targetNotFound, [Event.peek])
    | some peekedTarget =>
      let recv := if env.received.length > 0 then processBatch target env.received
                  else (none, [])
      let preTrace := Event.peek :: Event.receive :: recv.2
      match recv.1 with
      | some targetMessage =>
        let out := lockPathOutMessage targetMessage
        if env.sendOk then
          (Except.ok (), preTrace ++ [Event.send out, Event.complete targetMessage.sequenceNumber])
        else (Except.error SBError.sendFailed, preTrace ++ [Event.send out])
      | none =>
        let out := fallbackOutMessage peekedTarget
        if env.sendOk then
          let postSend := preTrace ++ [Event.send out, Event.receiveAndDelete]
          if env.deleted.any (fun m =>
              m.messageId == peekedTarget.messageId || m.sequenceNumber == target) then
            (Except.ok (), postSend)
          else if env.deleted.length > 0 then
            (Except.ok (), postSend ++ [Event.warnAssumedDeleted])
          else (Except.ok (), postSend ++ [Event.warnNotDeleted])
        else (Except.error SBError.sendFailed, preTrace ++ [Event.send out])

/-- A non-matching dead-letter message (sequence number 7). -/
def msg7 : Msg := ⟨7, "m7", .vnull, none, none, none, none, none, .vnull⟩

/-- A non-matching dead-letter message (sequence number 9). -/
def msg9 : Msg := ⟨9, "m9", .vnull, none, none, none, none, none, .vnull⟩

/-- The target dead-letter message (sequence number 42, message id m1). -/
def msg42 : Msg := ⟨42, "m1", .vnull, none, none, none, none, some "TTLExpired", .vnull⟩

/-- A broker environment driving the lock-held path: the target is peeked,
the receive returns it along with two non-matches, and the send succeeds. -/
def envLock : Env := ⟨[msg42], [msg7, msg42, msg9], true, []⟩

/-- A broker environment driving the peek-fallback path with the deletion
pass confirming the target: the target is peeked, the lock-based receive
hands back nothing, the send succeeds, and the auto-complete pass returns
the target. -/
def envFallbackClean : Env := ⟨[msg42], [], true, [msg42]⟩

/-- A broker environment driving the peek-fallback path with the deletion
pass returning nothing. -/
def envNoLock : Env := ⟨[msg42], [], true, []⟩

/-! ## Theorems -/

mutual
/-- Conversion is the identity on plain values none of whose records match
a broker-native decode guard. -/
theorem convert_plain_aux :
    ∀ v, isPlainValue v = true → brokerFree v = true → convertToPlainObject v = v
  | .vnull, _, _ => rfl
  | .vstr _, _, _ => rfl
  | .vnum _, _, _ => rfl
  | .vbool _, _, _ => rfl
  | .vbuf _, _, _ => rfl
  | .vdate _, hp, _ => by simp [isPlainValue] at hp
  | .vmap _, hp, _ => by simp [isPlainValue] at hp
  | .vjson _, hp, _ => by simp [isPlainValue] at hp
  | .varr xs, hp, hb => by
      simp only [isPlainValue] at hp
      simp only [brokerFree] at hb
      simp only [convertToPlainObject, convertList_plain_aux xs hp hb]
  | .vobj fs, hp, hb => by
      simp only [isPlainValue] at hp
      simp only [brokerFree, Bool.and_eq_true, Bool.not_eq_true'] at hb
      obtain ⟨⟨hd, hs⟩, hbf⟩ := hb
      simp only [convertToPlainObject, hd, Bool.false_eq_true, if_false, hs,
        convertFields_plain_aux fs hp hbf]
/-- List version of `convert_plain_aux`. -/
theorem convertList_plain_aux :
    ∀ xs, isPlainList xs = true → brokerFreeList xs = true → convertToPlainList xs = xs
  | .nil, _, _ => rfl
  | .cons x t, hp, hb => by
      simp only [isPlainList, Bool.and_eq_true] at hp
      simp only [brokerFreeList, Bool.and_eq_true] at hb
      simp only [convertToPlainList, convert_plain_aux x hp.1 hb.1,
        convertList_plain_aux t hp.2 hb.2]
/-- Field version of `convert_plain_aux`. -/
theorem convertFields_plain_aux :
    ∀ fs, isPlainFields fs = true → brokerFreeFields fs = true → convertToPlainFields fs = fs
  | .nil, _, _ => rfl
  | .cons k v t, hp, hb => by
      simp only [isPlainFields, Bool.and_eq_true] at hp
      simp only [brokerFreeFields, Bool.and_eq_true] at hb
      simp only [convertToPlainFields, convert_plain_aux v hp.1 hb.1,
        convertFields_plain_aux t hp.2 hb.2]
end

/-- C7 (counterexample): normalization is not idempotent on every plain
value — the plain record with numeric fields low=5, high=0 (and no type
field) is reinterpreted by the split-word branch and collapses to the
number 5, not to itself. -/
theorem convert_not_idempotent_on_lowHigh :
    isPlainValue lowHighRecord = true ∧
    convertToPlainObject lowHighRecord = .vnum 5 ∧
    convertToPlainObject lowHighRecord ≠ lowHighRecord := by
  refine ⟨rfl, rfl, fun h => ?_⟩
  have h2 : JSValue.vnum 5 = lowHighRecord := h
  exact JSValue.noConfusion h2

/-- C7 (amended): normalization is idempotent on plain values (strings,
numbers, booleans, null, arrays, buffers and plain string-keyed records of
such values) provided no record in the value structurally matches one of
the broker-native decode guards — in particular no record has both a `low`
and a `high` field without a `type` field, and none matches the
datetime-offset descriptor shape.  Records that do match those guards are
reinterpreted (the counterexample), so the carve-out is forced. -/
theorem convertToPlainObject_idempotent_on_plain (v : JSValue)
    (hp : isPlainValue v = true) (hb : brokerFree v = true) :
    convertToPlainObject v = v :=
  convert_plain_aux v hp hb

/-- Witness for C7 (amended): a concrete nested plain value is returned
unchanged. -/
theorem convertToPlainObject_idempotent_witness :
    isPlainValue (.varr (.cons (.vnum 3) (.cons (.vobj (.cons "a" (.vstr "x") .nil)) .nil))) = true ∧
    brokerFree (.varr (.cons (.vnum 3) (.cons (.vobj (.cons "a" (.vstr "x") .nil)) .nil))) = true ∧
    convertToPlainObject (.varr (.cons (.vnum 3) (.cons (.vobj (.cons "a" (.vstr "x") .nil)) .nil))) =
      .varr (.cons (.vnum 3) (.cons (.vobj (.cons "a" (.vstr "x") .nil)) .nil)) :=
  ⟨rfl, rfl, convertToPlainObject_idempotent_on_plain _ rfl rfl⟩

/-- C3 (counterexample): the reconstruction of the boundary split-word
record is exactly 1000000000000, which lies in the claimed half-open
interval, yet `convertToPlainObject` returns the plain integer, not an
ISO-8601 string: the source tests `num > 1000000000000` strictly. -/
theorem convert_splitWord_boundary_counterexample :
    (3567587328 : Int) + 232 * 4294967296 = 1000000000000 ∧
    convertToPlainObject splitWordBoundary = .vnum 1000000000000 ∧
    ∀ s, convertToPlainObject splitWordBoundary ≠ .vstr s := by
  refine ⟨by decide, rfl, fun s h => ?_⟩
  have h2 : JSValue.vnum 1000000000000 = JSValue.vstr s := h
  exact JSValue.noConfusion h2

/-- C3 (amended): for every record matching the split-word guard (fields
`low` and `high`, both numeric, no `type` field, not matching the
datetime-offset guard), normalization reconstructs n = low + high * 2^32
and returns an ISO-8601 string exactly when n lies in the OPEN interval
(1000000000000, 2000000000000); for every n outside that open interval —
including the left boundary 1000000000000 itself — it returns the plain
integer n. -/
theorem convertToPlainObject_splitWord (fs : JSFields) (lo hi : Int)
    (hd : datetimeShape fs = false) (hs : splitWordShape fs = true)
    (hl : fs.prop "low" = some (.vnum lo)) (hh : fs.prop "high" = some (.vnum hi)) :
    convertToPlainObject (.vobj fs) =
      if 1000000000000 < lo + hi * 4294967296 ∧ lo + hi * 4294967296 < 2000000000000
      then .vstr (isoDateString (lo + hi * 4294967296))
      else .vnum (lo + hi * 4294967296) := by
  simp only [convertToPlainObject, hd, Bool.false_eq_true, if_false, hs, if_true, hl, hh]

/-- Witness for C3 (amended): a split-word record reconstructing
1500000000000 (inside the open interval) yields an ISO-8601 string, and
the theorem applies to it. -/
theorem convertToPlainObject_splitWord_witness :
    convertToPlainObject (.vobj (.cons "low" (.vnum 1056413696) (.cons "high" (.vnum 349) .nil))) =
      .vstr (isoDateString 1500000000000) := by
  have h := convertToPlainObject_splitWord
    (.cons "low" (.vnum 1056413696) (.cons "high" (.vnum 349) .nil))
    1056413696 349 rfl rfl rfl rfl
  rw [h]
  norm_num

theorem mapGet_set_self {α : Type} (m : List (String × α)) (k : String) (v : α) :
    mapGet (mapSet m k v) k = some v := by
  induction m with
  | nil => simp [mapGet, mapSet]
  | cons p t ih =>
    by_cases h : p.1 = k
    · simp [mapGet, mapSet, h]
    · simp [mapGet, mapSet, h, ih]

theorem mapGet_set_ne {α : Type} (m : List (String × α)) (k k2 : String) (v : α)
    (h : k2 ≠ k) : mapGet (mapSet m k v) k2 = mapGet m k2 := by
  have hkk : ¬k = k2 := fun hh => h hh.symm
  induction m with
  | nil => simp [mapGet, mapSet, hkk]
  | cons p t ih =>
    by_cases hp : p.1 = k
    · simp [mapGet, mapSet, hp, hkk]
    · simp [mapGet, mapSet, hp, ih]

theorem mapGet_delete_self {α : Type} (m : List (String × α)) (k : String) :
    mapGet (mapDelete m k) k = none := by
  induction m with
  | nil => simp [mapGet, mapDelete]
  | cons p t ih =>
    by_cases h : p.1 = k
    · simp [mapDelete, h, ih]
    · simp [mapGet, mapDelete, h, ih]

theorem mapGet_delete_ne {α : Type} (m : List (String × α)) (k k2 : String)
    (h : k2 ≠ k) : mapGet (mapDelete m k) k2 = mapGet m k2 := by
  have hkk : ¬k = k2 := fun hh => h hh.symm
  induction m with
  | nil => simp [mapDelete]
  | cons p t ih =>
    by_cases hp : p.1 = k
    · simp [mapGet, mapDelete, hp, ih, hkk]
    · simp [mapGet, mapDelete, hp, ih]

/-- C8 (counterexample): the cache key is NOT canonical.  Starting from an
empty cache, requesting a client for the bare spelling "myns" and then for
"myns.servicebus.windows.net" — two spellings of the same namespace, as
both constructed clients' identical endpoint configs show — constructs two
distinct clients and leaves two cache entries, instead of one construction
and one shared entry. -/
theorem getClient_two_spellings_counterexample :
    (getClient "myns" emptyServiceState).1.id = 0 ∧
    (getClient "myns" emptyServiceState).1.config =
      ClientConfig.aad "myns.servicebus.windows.net" ∧
    (getClient "myns.servicebus.windows.net" (getClient "myns" emptyServiceState).2).1.id = 1 ∧
    (getClient "myns.servicebus.windows.net" (getClient "myns" emptyServiceState).2).1.config =
      ClientConfig.aad "myns.servicebus.windows.net" ∧
    (getClient "myns.servicebus.windows.net" (getClient "myns" emptyServiceState).2).2.clients.length = 2 := by
  decide

/-- C8 (amended): the client cache is keyed by the namespace string
exactly as supplied, with no canonicalization of the key: a repeated
request with the SAME spelling returns the already-cached client and
leaves the state unchanged (one construction), while the bare and the
suffixed spelling of one namespace occupy two distinct cache entries (the
counterexample); only the endpoint handed to the SDK is canonicalized. -/
theorem getClient_cached_by_literal_key (ns : String) (st : SBState) :
    getClient ns (getClient ns st).2 = ((getClient ns st).1, (getClient ns st).2) := by
  cases hc : mapGet st.clients ns with
  | some c => simp [getClient, hc]
  | none => simp [getClient, hc, mapGet_set_self]

/-- C10: registerConnectionString is atomic on bad input and
frame-respecting on good input.  When no namespace parses from the input
(empty result), the state — connection-string map and both client caches —
is left completely unchanged and the empty string is returned; when a
namespace parses, only that namespace's connection-string entry is written
and only that namespace's cached client and admin client are evicted,
every other key's entries being unchanged (and no client is constructed:
the counter is untouched). -/
theorem registerConnectionString_frame (s : String) (st : SBState) :
    (registerConnectionString s st).1 = getNamespaceFromConnectionString s ∧
    (getNamespaceFromConnectionString s = "" → (registerConnectionString s st).2 = st) ∧
    (getNamespaceFromConnectionString s ≠ "" →
      mapGet (registerConnectionString s st).2.connectionStrings
        (getNamespaceFromConnectionString s) = some s ∧
      mapGet (registerConnectionString s st).2.clients
        (getNamespaceFromConnectionString s) = none ∧
      mapGet (registerConnectionString s st).2.adminClients
        (getNamespaceFromConnectionString s) = none ∧
      (registerConnectionString s st).2.nextId = st.nextId ∧
      ∀ k, k ≠ getNamespaceFromConnectionString s →
        mapGet (registerConnectionString s st).2.connectionStrings k =
          mapGet st.connectionStrings k ∧
        mapGet (registerConnectionString s st).2.clients k = mapGet st.clients k ∧
        mapGet (registerConnectionString s st).2.adminClients k = mapGet st.adminClients k) := by
  by_cases h0 : getNamespaceFromConnectionString s = ""
  · simp [registerConnectionString, h0]
  · refine ⟨by simp [registerConnectionString, h0], fun hc => absurd hc h0,
      fun _ => ⟨?_, ?_, ?_, ?_, fun k hk => ⟨?_, ?_, ?_⟩⟩⟩
    · simp [registerConnectionString, h0, mapGet_set_self]
    · simp [registerConnectionString, h0, mapGet_delete_self]
    · simp [registerConnectionString, h0, mapGet_delete_self]
    · simp [registerConnectionString, h0]
    · simp [registerConnectionString, h0, mapGet_set_ne _ _ _ _ hk]
    · simp [registerConnectionString, h0, mapGet_delete_ne _ _ _ hk]
    · simp [registerConnectionString, h0, mapGet_delete_ne _ _ _ hk]

/-- Witness for C10: the example connection string parses to its
namespace, registering it stores it under that namespace, and the
unrelated namespace's cached client is untouched. -/
theorem registerConnectionString_frame_witness :
    getNamespaceFromConnectionString exampleConnStr = "myns.servicebus.windows.net" ∧
    mapGet (registerConnectionString exampleConnStr exampleState).2.connectionStrings
      "myns.servicebus.windows.net" = some exampleConnStr ∧
    mapGet (registerConnectionString exampleConnStr exampleState).2.clients "other" =
      mapGet exampleState.clients "other" := by
  have h := registerConnectionString_frame exampleConnStr exampleState
  have hns : getNamespaceFromConnectionString exampleConnStr =
      "myns.servicebus.windows.net" := by decide
  have hne : getNamespaceFromConnectionString exampleConnStr ≠ "" := by decide
  refine ⟨hns, ?_, ?_⟩
  · have := (h.2.2 hne).1
    rwa [hns] at this
  · exact ((h.2.2 hne).2.2.2.2 "other" (by decide)).2.1

/-- C9: the REST peek-lock returns null without error exactly when the
status is 204; every other non-success status raises an error whose
message carries the response body text; and on a success status (with a
parsable BrokerProperties header) it returns the receipt holding the
parsed BrokerProperties header (the empty record when the header is
absent), the Location header and the raw unparsed body. -/
theorem peekLockMessageRest_spec (parseJson : String → Option JSValue)
    (resp : HttpResponse) :
    (peekLockMessageRest parseJson resp = Except.ok none ↔ resp.status = 204) ∧
    (resp.status ≠ 204 → respOk resp = false →
      peekLockMessageRest parseJson resp = Except.error (peekLockErrorMessage resp) ∧
      ∃ pre, peekLockErrorMessage resp = pre ++ resp.body) ∧
    (resp.status ≠ 204 → respOk resp = true →
      (∀ hdr, headerGet resp.headers "BrokerProperties" = some hdr → parseJson hdr ≠ none) →
      ∃ rec, peekLockMessageRest parseJson resp = Except.ok (some rec) ∧
        rec.body = resp.body ∧
        rec.location = (headerGet resp.headers "Location").getD "" ∧
        (∀ hdr bp, headerGet resp.headers "BrokerProperties" = some hdr →
          parseJson hdr = some bp → rec.brokerProperties = bp) ∧
        (headerGet resp.headers "BrokerProperties" = none →
          rec.brokerProperties = .vobj .nil) ∧
        rec.userProperties = collectUserProperties parseJson resp.headers) := by
  refine ⟨⟨?_, ?_⟩, ?_, ?_⟩
  · intro h
    by_contra h204
    cases hok : respOk resp with
    | false => simp [peekLockMessageRest, h204, hok] at h
    | true =>
      cases hb : headerGet resp.headers "BrokerProperties" with
      | none => simp [peekLockMessageRest, h204, hok, hb] at h
      | some hdr =>
        cases hp : parseJson hdr with
        | none => simp [peekLockMessageRest, h204, hok, hb, hp] at h
        | some bp => simp [peekLockMessageRest, h204, hok, hb, hp] at h
  · intro h204
    simp [peekLockMessageRest, h204]
  · intro h204 hok
    refine ⟨by simp [peekLockMessageRest, h204, hok], ?_⟩
    exact ⟨"REST API peek-lock failed: " ++ toString resp.status ++ " " ++
      resp.statusText ++ " - ", rfl⟩
  · intro h204 hok hparse
    cases hb : headerGet resp.headers "BrokerProperties" with
    | none =>
      refine ⟨⟨resp.body, .vobj .nil, collectUserProperties parseJson resp.headers,
        (headerGet resp.headers "Location").getD ""⟩, ?_, rfl, rfl, ?_, fun _ => rfl, rfl⟩
      · simp [peekLockMessageRest, h204, hok, hb]
      · intro hdr bp hbb hpp
        exact Option.noConfusion hbb
    | some hdr =>
      cases hp : parseJson hdr with
      | none => exact absurd hp (hparse hdr hb)
      | some bp =>
        refine ⟨⟨resp.body, bp, collectUserProperties parseJson resp.headers,
          (headerGet resp.headers "Location").getD ""⟩, ?_, rfl, rfl, ?_, ?_, rfl⟩
        · simp [peekLockMessageRest, h204, hok, hb, hp]
        · intro hdr2 bp2 hbb hpp
          injection hbb with he
          subst he
          rw [hp] at hpp
          exact Option.some.inj hpp
        · intro hnone
          exact Option.noConfusion hnone

/-- Witness for C9: a concrete 204 response yields null, and a concrete
500 response yields the error carrying its body text. -/
theorem peekLockMessageRest_spec_witness :
    peekLockMessageRest (fun _ => none) ⟨204, "No Content", [], ""⟩ = Except.ok none ∧
    peekLockMessageRest (fun _ => none) ⟨500, "Server Error", [], "boom"⟩ =
      Except.error (peekLockErrorMessage ⟨500, "Server Error", [], "boom"⟩) := by
  constructor
  · exact (peekLockMessageRest_spec (fun _ => none) ⟨204, "No Content", [], ""⟩).1.mpr rfl
  · exact ((peekLockMessageRest_spec (fun _ => none)
      ⟨500, "Server Error", [], "boom"⟩).2.1 (by decide) (by decide)).1

/-! ## Helper lemmas about the resubmit model -/

theorem recv_branch (env : Env) (target : Nat) :
    (if env.received.length > 0 then processBatch target env.received else (none, []))
      = processBatch target env.received := by
  cases env.received with
  | nil => simp [processBatch]
  | cons m ms => simp

theorem processBatch_events (target : Nat) (msgs : List Msg) :
    ∀ e ∈ (processBatch target msgs).2, ∃ s, e = Event.abandon s := by
  induction msgs with
  | nil => intro e he; simp [processBatch] at he
  | cons m ms ih =>
    intro e he
    by_cases h : m.sequenceNumber = target
    · simp only [processBatch, h, if_true] at he
      exact ih e he
    · simp only [processBatch, h, if_false] at he
      rcases List.mem_cons.mp he with he | he
      · exact ⟨m.sequenceNumber, he⟩
      · exact ih e he

theorem complete_not_in_batch_trace (target : Nat) (msgs : List Msg) (s : Nat) :
    Event.complete s ∉ (processBatch target msgs).2 := by
  intro hmem
  rcases processBatch_events target msgs _ hmem with ⟨s2, hcontr⟩
  exact Event.noConfusion hcontr

theorem send_not_in_batch_trace (target : Nat) (msgs : List Msg) (out : OutMsg) :
    Event.send out ∉ (processBatch target msgs).2 := by
  intro hmem
  rcases processBatch_events target msgs _ hmem with ⟨s2, hcontr⟩
  exact Event.noConfusion hcontr

theorem processBatch_trace (target : Nat) (msgs : List Msg) :
    (processBatch target msgs).2 =
      (msgs.filter (fun m => m.sequenceNumber != target)).map
        (fun m => Event.abandon m.sequenceNumber) := by
  induction msgs with
  | nil => simp [processBatch]
  | cons m ms ih =>
    by_cases h : m.sequenceNumber = target
    · simp [processBatch, h, ih]
    · simp [processBatch, h, ih]

theorem processBatch_some (target : Nat) (msgs : List Msg) (t : Msg)
    (h : (processBatch target msgs).1 = some t) :
    t ∈ msgs ∧ t.sequenceNumber = target := by
  induction msgs with
  | nil => simp [processBatch] at h
  | cons m ms ih =>
    by_cases hm : m.sequenceNumber = target
    · simp only [processBatch, hm, if_true] at h
      cases hr : (processBatch target ms).1 with
      | none =>
        rw [hr] at h
        simp only [Option.getD_none, Option.some.injEq] at h
        subst h
        exact ⟨List.mem_cons_self m ms, hm⟩
      | some t2 =>
        rw [hr] at h
        simp only [Option.getD_some, Option.some.injEq] at h
        subst h
        obtain ⟨hmem, hseq⟩ := ih hr
        exact ⟨List.mem_cons_of_mem m hmem, hseq⟩
    · simp only [processBatch, hm, if_false] at h
      obtain ⟨hmem, hseq⟩ := ih h
      exact ⟨List.mem_cons_of_mem m hmem, hseq⟩

theorem processBatch_none_iff (target : Nat) (msgs : List Msg) :
    (processBatch target msgs).1 = none ↔ ∀ m ∈ msgs, m.sequenceNumber ≠ target := by
  induction msgs with
  | nil => simp [processBatch]
  | cons m ms ih =>
    by_cases hm : m.sequenceNumber = target
    · simp [processBatch, hm]
    · simp [processBatch, hm, ih]

theorem processBatch_finds_match (target : Nat) (msgs : List Msg)
    (hnodup : (msgs.map (fun m => m.sequenceNumber)).Nodup) (t : Msg)
    (ht : t ∈ msgs) (hseq : t.sequenceNumber = target) :
    (processBatch target msgs).1 = some t := by
  induction msgs with
  | nil => simp at ht
  | cons m ms ih =>
    rw [List.map_cons, List.nodup_cons] at hnodup
    obtain ⟨hnotin, hnd⟩ := hnodup
    rcases List.mem_cons.mp ht with rfl | hmem
    · have hrest : (processBatch target ms).1 = none := by
        rw [processBatch_none_iff]
        intro m2 hm2 hcontr
        apply hnotin
        have : m2.sequenceNumber ∈ ms.map (fun m => m.sequenceNumber) :=
          List.mem_map_of_mem _ hm2
        rwa [hcontr, ← hseq] at this
      simp [processBatch, hseq, hrest]
    · have hm_ne : m.sequenceNumber ≠ target := by
        intro hcontr
        apply hnotin
        have : t.sequenceNumber ∈ ms.map (fun m => m.sequenceNumber) :=
          List.mem_map_of_mem _ hmem
        rwa [hseq, ← hcontr] at this
      simp [processBatch, hm_ne, ih hnd hmem]

theorem resubmit_lock_trace (env : Env) (target : Nat) (pt t : Msg)
    (h0 : ¬env.peeked.length = 0)
    (hf : env.peeked.find? (fun m => m.sequenceNumber == target) = some pt)
    (hr : (processBatch target env.received).1 = some t) :
    resubmitMessage env target =
      (if env.sendOk then
        (Except.ok (),
          (Event.peek :: Event.receive :: (processBatch target env.received).2) ++
            [Event.send (lockPathOutMessage t), Event.complete t.sequenceNumber])
       else
        (Except.error SBError.sendFailed,
          (Event.peek :: Event.receive :: (processBatch target env.received).2) ++
            [Event.send (lockPathOutMessage t)])) := by
  cases hs : env.sendOk <;> simp [resubmitMessage, h0, hf, recv_branch, hr, hs]

theorem resubmit_fallback_trace (env : Env) (target : Nat) (pt : Msg)
    (h0 : ¬env.peeked.length = 0)
    (hf : env.peeked.find? (fun m => m.sequenceNumber == target) = some pt)
    (hr : (processBatch target env.received).1 = none) :
    resubmitMessage env target =
      (if env.sendOk then
        (Except.ok (),
          (Event.peek :: Event.receive :: (processBatch target env.received).2) ++
            ([Event.send (fallbackOutMessage pt), Event.receiveAndDelete] ++
              (if env.deleted.any (fun m =>
                  m.messageId == pt.messageId || m.sequenceNumber == target) then []
               else if env.deleted.length > 0 then [Event.warnAssumedDeleted]
               else [Event.warnNotDeleted])))
       else
        (Except.error SBError.sendFailed,
          (Event.peek :: Event.receive :: (processBatch target env.received).2) ++
            [Event.send (fallbackOutMessage pt)])) := by
  cases hs : env.sendOk
  · simp [resubmitMessage, h0, hf, recv_branch, hr, hs]
  · by_cases hw : env.deleted.any (fun m =>
        m.messageId == pt.messageId || m.sequenceNumber == target) = true
    · simp [resubmitMessage, h0, hf, recv_branch, hr, hs, hw]
    · by_cases hl : env.deleted.length > 0
      · simp [resubmitMessage, h0, hf, recv_branch, hr, hs, hw, hl]
      · simp [resubmitMessage, h0, hf, recv_branch, hr, hs, hw, hl]

theorem complete_mem_cases (s : Nat) (l tail : List Event)
    (h : Event.complete s ∈ (Event.peek :: Event.receive :: l) ++ tail)
    (hl : ∀ e ∈ l, ∃ s2, e = Event.abandon s2) :
    Event.complete s ∈ tail := by
  rcases List.mem_append.mp h with h2 | h2
  · rcases List.mem_cons.mp h2 with h3 | h3
    · exact absurd h3 (by simp)
    rcases List.mem_cons.mp h3 with h4 | h4
    · exact absurd h4 (by simp)
    · rcases hl _ h4 with ⟨s2, he⟩
      exact absurd he (by simp)
  · exact h2

theorem send_mem_cases (out : OutMsg) (l tail : List Event)
    (h : Event.send out ∈ (Event.peek :: Event.receive :: l) ++ tail)
    (hl : ∀ e ∈ l, ∃ s2, e = Event.abandon s2) :
    Event.send out ∈ tail := by
  rcases List.mem_append.mp h with h2 | h2
  · rcases List.mem_cons.mp h2 with h3 | h3
    · exact absurd h3 (by simp)
    rcases List.mem_cons.mp h3 with h4 | h4
    · exact absurd h4 (by simp)
    · rcases hl _ h4 with ⟨s2, he⟩
      exact absurd he (by simp)
  · exact h2

theorem pre_trace_clean (l : List Event) (hl : ∀ e ∈ l, ∃ s2, e = Event.abandon s2) :
    ∀ e ∈ Event.peek :: Event.receive :: l,
      (∀ out2, e ≠ Event.send out2) ∧ (∀ s2, e ≠ Event.complete s2) := by
  intro e he
  rcases List.mem_cons.mp he with rfl | he2
  · exact ⟨fun o => by simp, fun s2 => by simp⟩
  rcases List.mem_cons.mp he2 with rfl | he3
  · exact ⟨fun o => by simp, fun s2 => by simp⟩
  · rcases hl _ he3 with ⟨s3, rfl⟩
    exact ⟨fun o => by simp, fun s2 => by simp⟩

/-- C1: send-before-complete on the lock-held path.  In every execution
of `resubmitMessage` whose trace completes (removes) the source message,
the send succeeded (a send rejection raises before any complete), the
trace ends with the send immediately followed by the complete, and no
send or complete occurs anywhere earlier — so completing the source never
precedes the send, and a failure between the two steps leaves the message
sent but not yet completed (duplicated at worst, never lost). -/
theorem resubmit_send_before_complete (env : Env) (target s : Nat)
    (h : Event.complete s ∈ (resubmitMessage env target).2) :
    env.sendOk = true ∧
    ∃ pre out, (resubmitMessage env target).2 = pre ++ [Event.send out, Event.complete s] ∧
      ∀ e ∈ pre, (∀ out2, e ≠ Event.send out2) ∧ (∀ s2, e ≠ Event.complete s2) := by
  by_cases h0 : env.peeked.length = 0
  · rw [show (resubmitMessage env target).2 = [Event.peek] from by
      simp [resubmitMessage, h0]] at h
    simp at h
  · cases hf : env.peeked.find? (fun m => m.sequenceNumber == target) with
    | none =>
      rw [show (resubmitMessage env target).2 = [Event.peek] from by
        simp [resubmitMessage, h0, hf]] at h
      simp at h
    | some pt =>
      cases hr : (processBatch target env.received).1 with
      | some t =>
        have htr := resubmit_lock_trace env target pt t h0 hf hr
        cases hs : env.sendOk with
        | false =>
          rw [htr] at h
          simp only [hs, Bool.false_eq_true, if_false] at h
          have h2 := complete_mem_cases s _ _ h (processBatch_events target env.received)
          simp at h2
        | true =>
          rw [htr] at h ⊢
          simp only [hs, if_true] at h ⊢
          have h2 := complete_mem_cases s _ _ h (processBatch_events target env.received)
          have hseq : s = t.sequenceNumber := by
            rcases List.mem_cons.mp h2 with h3 | h3
            · exact absurd h3 (by simp)
            · rcases List.mem_cons.mp h3 with h4 | h4
              · injection h4
              · simp at h4
          refine ⟨trivial, Event.peek :: Event.receive :: (processBatch target env.received).2,
            lockPathOutMessage t, ?_,
            pre_trace_clean _ (processBatch_events target env.received)⟩
          rw [hseq]
      | none =>
        have htr := resubmit_fallback_trace env target pt h0 hf hr
        cases hs : env.sendOk with
        | false =>
          rw [htr] at h
          simp only [hs, Bool.false_eq_true, if_false] at h
          have h2 := complete_mem_cases s _ _ h (processBatch_events target env.received)
          simp at h2
        | true =>
          rw [htr] at h
          simp only [hs, if_true] at h
          have h2 := complete_mem_cases s _ _ h (processBatch_events target env.received)
          rcases List.mem_append.mp h2 with h3 | h3
          · simp at h3
          · split at h3
            · simp at h3
            · split at h3 <;> simp at h3

theorem JSFields.prop_append : ∀ (a b : JSFields) (k : String),
    (JSFields.append a b).prop k =
      match b.prop k with
      | some w => some w
      | none => a.prop k
  | .nil, b, k => by
    cases hb : b.prop k <;> simp [JSFields.prop, JSFields.append, hb]
  | .cons k2 v t, b, k => by
    have ih := JSFields.prop_append t b k
    simp only [JSFields.append, JSFields.prop, ih]
    cases hb : b.prop k <;> simp

theorem lockPathProperties_props (t : Msg) :
    (lockPathProperties t).prop "x-resubmitted" = some (.vbool true) ∧
    (lockPathProperties t).prop "x-original-dead-letter-reason" =
      some (optionStrVal t.deadLetterReason) ∧
    (lockPathProperties t).prop "x-original-message-id" =
      (spreadFields (convertToPlainObject t.applicationProperties)).prop
        "x-original-message-id" := by
  refine ⟨?_, ?_, ?_⟩ <;> simp only [lockPathProperties, JSFields.prop_append] <;> rfl

theorem fallbackProperties_props (t : Msg) :
    (fallbackProperties t).prop "x-resubmitted" = some (.vbool true) ∧
    (fallbackProperties t).prop "x-original-dead-letter-reason" =
      some (optionStrVal t.deadLetterReason) ∧
    (fallbackProperties t).prop "x-original-message-id" = some (.vstr t.messageId) := by
  refine ⟨?_, ?_, ?_⟩ <;> simp only [fallbackProperties, JSFields.prop_append] <;> rfl

/-- C2 (amended): every message sent by `resubmitMessage` originates from
a source message with the target sequence number and carries
x-resubmitted=true and x-original-dead-letter-reason set to that source's
dead-letter reason; the peek-fallback send additionally carries
x-original-message-id set to the source's message id (and a re-minted
messageId), while the lock-held send adds NO x-original-message-id (the
key is present only if the original application properties already held
it) and keeps the original messageId instead. -/
theorem resubmit_sent_properties (env : Env) (target : Nat) (out : OutMsg)
    (h : Event.send out ∈ (resubmitMessage env target).2) :
    ∃ t : Msg, t.sequenceNumber = target ∧ (t ∈ env.received ∨ t ∈ env.peeked) ∧
      (out = lockPathOutMessage t ∨ out = fallbackOutMessage t) ∧
      out.applicationProperties.prop "x-resubmitted" = some (.vbool true) ∧
      out.applicationProperties.prop "x-original-dead-letter-reason" =
        some (optionStrVal t.deadLetterReason) ∧
      (out = fallbackOutMessage t →
        out.applicationProperties.prop "x-original-message-id" = some (.vstr t.messageId) ∧
        out.messageId = "resubmit-" ++ t.messageId) ∧
      (out = lockPathOutMessage t →
        out.applicationProperties.prop "x-original-message-id" =
          (spreadFields (convertToPlainObject t.applicationProperties)).prop
            "x-original-message-id" ∧
        out.messageId = t.messageId) := by
  have mk : ∀ t : Msg, (out = lockPathOutMessage t ∨ out = fallbackOutMessage t) →
      t.sequenceNumber = target → (t ∈ env.received ∨ t ∈ env.peeked) →
      ∃ t2 : Msg, t2.sequenceNumber = target ∧ (t2 ∈ env.received ∨ t2 ∈ env.peeked) ∧
        (out = lockPathOutMessage t2 ∨ out = fallbackOutMessage t2) ∧
        out.applicationProperties.prop "x-resubmitted" = some (.vbool true) ∧
        out.applicationProperties.prop "x-original-dead-letter-reason" =
          some (optionStrVal t2.deadLetterReason) ∧
        (out = fallbackOutMessage t2 →
          out.applicationProperties.prop "x-original-message-id" =
            some (.vstr t2.messageId) ∧
          out.messageId = "resubmit-" ++ t2.messageId) ∧
        (out = lockPathOutMessage t2 →
          out.applicationProperties.prop "x-original-message-id" =
            (spreadFields (convertToPlainObject t2.applicationProperties)).prop
              "x-original-message-id" ∧
          out.messageId = t2.messageId) := by
    intro t hdisj hseq hmem
    refine ⟨t, hseq, hmem, hdisj, ?_, ?_, ?_, ?_⟩
    · rcases hdisj with rfl | rfl
      · exact (lockPathProperties_props t).1
      · exact (fallbackProperties_props t).1
    · rcases hdisj with rfl | rfl
      · exact (lockPathProperties_props t).2.1
      · exact (fallbackProperties_props t).2.1
    · intro he
      rw [he]
      exact ⟨(fallbackProperties_props t).2.2, rfl⟩
    · intro he
      rw [he]
      exact ⟨(lockPathProperties_props t).2.2, rfl⟩
  by_cases h0 : env.peeked.length = 0
  · rw [show (resubmitMessage env target).2 = [Event.peek] from by
      simp [resubmitMessage, h0]] at h
    simp at h
  · cases hf : env.peeked.find? (fun m => m.sequenceNumber == target) with
    | none =>
      rw [show (resubmitMessage env target).2 = [Event.peek] from by
        simp [resubmitMessage, h0, hf]] at h
      simp at h
    | some pt =>
      have hpt_mem : pt ∈ env.peeked := List.mem_of_find?_eq_some hf
      have hpt_seq : pt.sequenceNumber = target := by
        simpa using List.find?_some hf
      cases hr : (processBatch target env.received).1 with
      | some t =>
        obtain ⟨ht_mem, ht_seq⟩ := processBatch_some target env.received t hr
        have htr := resubmit_lock_trace env target pt t h0 hf hr
        cases hs : env.sendOk with
        | false =>
          rw [htr] at h
          simp only [hs, Bool.false_eq_true, if_false] at h
          have h2 := send_mem_cases out _ _ h (processBatch_events target env.received)
          rcases List.mem_cons.mp h2 with h3 | h3
          · injection h3 with h4
            exact mk t (Or.inl h4) ht_seq (Or.inl ht_mem)
          · simp at h3
        | true =>
          rw [htr] at h
          simp only [hs, if_true] at h
          have h2 := send_mem_cases out _ _ h (processBatch_events target env.received)
          rcases List.mem_cons.mp h2 with h3 | h3
          · injection h3 with h4
            exact mk t (Or.inl h4) ht_seq (Or.inl ht_mem)
          · rcases List.mem_cons.mp h3 with h4 | h4
            · exact absurd h4 (by simp)
            · simp at h4
      | none =>
        have htr := resubmit_fallback_trace env target pt h0 hf hr
        cases hs : env.sendOk with
        | false =>
          rw [htr] at h
          simp only [hs, Bool.false_eq_true, if_false] at h
          have h2 := send_mem_cases out _ _ h (processBatch_events target env.received)
          rcases List.mem_cons.mp h2 with h3 | h3
          · injection h3 with h4
            exact mk pt (Or.inr h4) hpt_seq (Or.inr hpt_mem)
          · simp at h3
        | true =>
          rw [htr] at h
          simp only [hs, if_true] at h
          have h2 := send_mem_cases out _ _ h (processBatch_events target env.received)
          rcases List.mem_append.mp h2 with h3 | h3
          · rcases List.mem_cons.mp h3 with h4 | h4
            · injection h4 with h5
              exact mk pt (Or.inr h5) hpt_seq (Or.inr hpt_mem)
            · simp at h4
          · split at h3
            · simp at h3
            · split at h3 <;> simp at h3

/-- C5: for every batch handed back by the lock-based receive, the
per-batch loop abandons exactly the messages whose sequence number does
not match the target (in batch order), emits no complete (and no send),
any bound result is a matching member of the batch that is never
abandoned — its lock stays outstanding for the later
send-before-complete step — and, when the batch's sequence numbers are
distinct (as the broker guarantees), a matching message present in the
batch is bound as the result. -/
theorem messageLocator_batch_spec (target : Nat) (msgs : List Msg)
    (hnodup : (msgs.map (fun m => m.sequenceNumber)).Nodup) :
    ((processBatch target msgs).2 =
      (msgs.filter (fun m => m.sequenceNumber != target)).map
        (fun m => Event.abandon m.sequenceNumber)) ∧
    (∀ t, (processBatch target msgs).1 = some t →
      t ∈ msgs ∧ t.sequenceNumber = target ∧
      Event.abandon t.sequenceNumber ∉ (processBatch target msgs).2) ∧
    (∀ s, Event.complete s ∉ (processBatch target msgs).2) ∧
    (∀ t, t ∈ msgs → t.sequenceNumber = target → (processBatch target msgs).1 = some t) := by
  refine ⟨processBatch_trace target msgs, ?_,
    fun s => complete_not_in_batch_trace target msgs s,
    fun t ht hseq => processBatch_finds_match target msgs hnodup t ht hseq⟩
  intro t h
  obtain ⟨hmem, hseq⟩ := processBatch_some target msgs t h
  refine ⟨hmem, hseq, ?_⟩
  rw [processBatch_trace]
  intro hcontr
  rcases List.mem_map.mp hcontr with ⟨m, hm, heq⟩
  rcases List.mem_filter.mp hm with ⟨_, hne⟩
  injection heq with h3
  have hne2 : m.sequenceNumber ≠ target := by simpa using hne
  exact hne2 (h3.trans hseq)

/-- Witness for C5: in a batch holding the target plus two others, exactly
the two non-matches are abandoned, in order, and the target is bound. -/
theorem messageLocator_batch_spec_witness :
    (processBatch 42 [msg7, msg42, msg9]).1 = some msg42 ∧
    (processBatch 42 [msg7, msg42, msg9]).2 = [Event.abandon 7, Event.abandon 9] := by
  have h := messageLocator_batch_spec 42 [msg7, msg42, msg9] (by decide)
  exact ⟨h.2.2.2 msg42 (List.mem_cons_of_mem msg7 (List.mem_cons_self msg42 [msg9])) rfl,
    rfl⟩

/-- Witness for C1: in the concrete lock-held run the complete of sequence
number 42 is in the trace, the send succeeded, and the trace ends with
send-then-complete after only peek/receive/abandon events. -/
theorem resubmit_send_before_complete_witness :
    Event.complete 42 ∈ (resubmitMessage envLock 42).2 ∧
    (envLock.sendOk = true ∧
      ∃ pre out, (resubmitMessage envLock 42).2 = pre ++ [Event.send out, Event.complete 42] ∧
        ∀ e ∈ pre, (∀ out2, e ≠ Event.send out2) ∧ (∀ s2, e ≠ Event.complete s2)) := by
  have hmem : Event.complete 42 ∈ (resubmitMessage envLock 42).2 := by
    have he : (resubmitMessage envLock 42).2 =
        [Event.peek, Event.receive, Event.abandon 7, Event.abandon 9,
         Event.send (lockPathOutMessage msg42), Event.complete 42] := rfl
    rw [he]
    simp
  exact ⟨hmem, resubmit_send_before_complete envLock 42 42 hmem⟩

/-- C2 (counterexample): in the concrete lock-held run the one message
sent to the origin carries x-resubmitted=true but NO x-original-message-id
property — refuting the claim that both relocation paths attach all three
properties.  (The original message id survives only as the messageId
field.) -/
theorem resubmit_lockpath_missing_original_id :
    (resubmitMessage envLock 42).2 =
      [Event.peek, Event.receive, Event.abandon 7, Event.abandon 9,
       Event.send (lockPathOutMessage msg42), Event.complete 42] ∧
    (lockPathOutMessage msg42).applicationProperties.prop "x-original-message-id" = none ∧
    (lockPathOutMessage msg42).applicationProperties.prop "x-resubmitted" =
      some (.vbool true) ∧
    (lockPathOutMessage msg42).messageId = "m1" :=
  ⟨rfl, rfl, rfl, rfl⟩

/-- Witness for C2 (amended): the concrete fallback run sends a message,
and the theorem applied to it yields x-resubmitted=true on the sent
property set. -/
theorem resubmit_sent_properties_witness :
    (fallbackOutMessage msg42).applicationProperties.prop "x-resubmitted" =
      some (.vbool true) := by
  have hmem : Event.send (fallbackOutMessage msg42) ∈ (resubmitMessage envFallbackClean 42).2 := by
    have he : (resubmitMessage envFallbackClean 42).2 =
        [Event.peek, Event.receive, Event.send (fallbackOutMessage msg42),
         Event.receiveAndDelete] := rfl
    rw [he]
    simp
  obtain ⟨t, _, _, _, hres, _⟩ :=
    resubmit_sent_properties envFallbackClean 42 (fallbackOutMessage msg42) hmem
  exact hres

/-- C4: when the target sequence number is not among the peeked messages
(in particular when the peek returns nothing), the resubmit fails with a
not-found error and its trace is the confirmation peek alone — no
lock-based receive, abandon, send or complete is ever issued. -/
theorem resubmit_notfound_no_receive (env : Env) (target : Nat)
    (h : ∀ m ∈ env.peeked, m.sequenceNumber ≠ target) :
    ((resubmitMessage env target).1 = Except.error SBError.noMessagesFound ∨
     (resubmitMessage env target).1 = Except.error SBError.targetNotFound) ∧
    (resubmitMessage env target).2 = [Event.peek] := by
  have hf : env.peeked.find? (fun m => m.sequenceNumber == target) = none :=
    List.find?_eq_none.mpr (fun m hm => by simpa using h m hm)
  by_cases h0 : env.peeked.length = 0
  · simp [resubmitMessage, h0]
  · simp [resubmitMessage, h0, hf]

/-- Witness for C4: target 7 is absent from the concrete peeked batch, so
the call fails not-found and the trace holds the peek alone. -/
theorem resubmit_notfound_no_receive_witness :
    ((resubmitMessage envNoLock 7).1 = Except.error SBError.noMessagesFound ∨
     (resubmitMessage envNoLock 7).1 = Except.error SBError.targetNotFound) ∧
    (resubmitMessage envNoLock 7).2 = [Event.peek] :=
  resubmit_notfound_no_receive envNoLock 7 (by decide)

/-- C6 (counterexample): on the peek-fallback path, the run whose
auto-complete pass returns nothing matching the target produces exactly
the same caller-visible result — a plain void success — as the run whose
pass confirms the deletion; the unconfirmed fate of the source copy is
recorded only as a logged warning, so no distinct PartialSuccess signal
distinguishable from clean success reaches the caller. -/
theorem resubmit_no_partial_success_signal :
    (resubmitMessage envFallbackClean 42).1 = Except.ok () ∧
    (resubmitMessage envNoLock 42).1 = Except.ok () ∧
    (resubmitMessage envNoLock 42).1 = (resubmitMessage envFallbackClean 42).1 ∧
    Event.warnNotDeleted ∈ (resubmitMessage envNoLock 42).2 := by
  refine ⟨rfl, rfl, rfl, ?_⟩
  have he : (resubmitMessage envNoLock 42).2 =
      [Event.peek, Event.receive, Event.send (fallbackOutMessage msg42),
       Event.receiveAndDelete, Event.warnNotDeleted] := rfl
  rw [he]
  simp

/-- C6 (amended): on the peek-fallback path, after a successful resend,
when nothing matching the target's message id or sequence number is found
among what the receive-and-auto-complete pass returned, the operation
still resolves as a plain void success for the caller; the unconfirmed
fate of the source copy is recorded only as a logged warning (one of the
two warning logs, depending on whether the pass removed other messages or
none), not as a distinct PartialSuccess result. -/
theorem resubmit_fallback_unconfirmed_warns (env : Env) (target : Nat) (pt : Msg)
    (hf : env.peeked.find? (fun m => m.sequenceNumber == target) = some pt)
    (hr : (processBatch target env.received).1 = none)
    (hs : env.sendOk = true)
    (hnm : ∀ m ∈ env.deleted, m.messageId ≠ pt.messageId ∧ m.sequenceNumber ≠ target) :
    (resubmitMessage env target).1 = Except.ok () ∧
    (Event.warnAssumedDeleted ∈ (resubmitMessage env target).2 ∨
     Event.warnNotDeleted ∈ (resubmitMessage env target).2) := by
  have h0 : ¬env.peeked.length = 0 := by
    intro hl
    rw [List.length_eq_zero] at hl
    rw [hl] at hf
    simp [List.find?] at hf
  have hany : env.deleted.any
      (fun m => m.messageId == pt.messageId || m.sequenceNumber == target) = false := by
    refine List.any_eq_false.mpr fun m hm => ?_
    simp only [Bool.or_eq_true, beq_iff_eq, not_or]
    exact ⟨(hnm m hm).1, (hnm m hm).2⟩
  rw [resubmit_fallback_trace env target pt h0 hf hr]
  by_cases hl : env.deleted.length > 0
  · exact ⟨by simp [hs, hany, hl], Or.inl (by simp [hs, hany, hl])⟩
  · exact ⟨by simp [hs, hany, hl], Or.inr (by simp [hs, hany, hl])⟩

/-- Witness for C6 (amended): the concrete unconfirmed fallback run
resolves ok and logs the deleted-nothing warning. -/
theorem resubmit_fallback_unconfirmed_warns_witness :
    (resubmitMessage envNoLock 42).1 = Except.ok () ∧
    (Event.warnAssumedDeleted ∈ (resubmitMessage envNoLock 42).2 ∨
     Event.warnNotDeleted ∈ (resubmitMessage envNoLock 42).2) :=
  resubmit_fallback_unconfirmed_warns envNoLock 42 msg42 rfl rfl rfl
    (fun m hm => absurd hm (by simp [envNoLock]))
